import Mathlib

/-!
Verification of the rogue-AP reporting pipeline of `find_rogues`
(src/find_rogues/app.py) against its natural-language specification.

The embedding models:
* detection records (Python dicts with string keys) as association lists
  `List (String × Value)` with dict-faithful operations: `lookup` (first
  match), `setKey` (overwrite in place, else append — Python dict
  assignment preserves insertion order), `delKey` (remove the key);
* the fuzzy matcher `fuzz.partial_ratio` of fuzzywuzzy 0.18.0, including
  the underlying `difflib.SequenceMatcher` block algorithm (no junk
  heuristic applies: `isjunk=None`, and the autojunk popularity rule
  needs sequences of length ≥ 200, far above any SSID). Scores are kept
  as exact fractions and compared by cross multiplication; Python
  computes the same values in binary floating point, which agrees on
  all inputs evaluated here;
* `find_ssids` (the classifier), the per-record normalization pass of
  `get_all_rogues`, `clean_rogue_data` (the projector) and the two
  delivery channels' configured `ignore_keys` lists.

Python's `str.lower` is modelled by `pyLower` (ASCII-faithful).
`pendulum.parse(..).to_cookie_string()` is a third-party collaborator
and is modelled as an abstract parameter `parse : Value → Option String`,
`none` standing for a parse exception.
-/

namespace FindRogues

/-- Values stored in a detection record: the fields used by the pipeline
are strings and numbers; booleans appear in vendor fields such as
`acknowledged`. -/
inductive Value where
  | vStr (s : String)
  | vInt (n : Int)
  | vBool (b : Bool)
deriving DecidableEq

/-- A detection record: a Python dict with string keys, as an insertion
ordered association list. Dicts produced by the API have pairwise
distinct keys; the operations below agree with Python's on such lists. -/
abbrev Record := List (String × Value)

/-- First-match association lookup: `d[k]` / `k in d`. -/
def lookup : Record → String → Option Value
  | [], _ => none
  | (k', v) :: rest, k => if k' = k then some v else lookup rest k

/-- Python's `k in d`. -/
def hasKey (ea : Record) (k : String) : Bool :=
  (lookup ea k).isSome

/-- Python's `d[k] = v`: overwrite in place when the key exists (insertion
order kept), append otherwise. -/
def setKey : Record → String → Value → Record
  | [], k, v => [(k, v)]
  | (k', v') :: rest, k, v =>
    if k' = k then (k, v) :: rest else (k', v') :: setKey rest k v

/-- Python's `del d[k]` / `d.pop(k)`: remove the key's entry. -/
def delKey : Record → String → Record
  | [], _ => []
  | (k', v) :: rest, k =>
    if k' = k then delKey rest k else (k', v) :: delKey rest k

/-- Length of the matching run ending at positions `(i, j)` with every
step inside the window `[alo, ahi) × [blo, bhi)`: the value difflib's
`find_longest_match` keeps in its `j2len` row while scanning row `i`. -/
def chainLen (a b : List Char) (alo ahi blo bhi : Nat) : Nat → Nat → Nat
  | 0, j =>
    if alo = 0 ∧ 0 < ahi ∧ blo ≤ j ∧ j < bhi ∧ (a[0]?).isSome ∧ a[0]? = b[j]? then 1
    else 0
  | i + 1, j =>
    if alo ≤ i + 1 ∧ i + 1 < ahi ∧ blo ≤ j ∧ j < bhi ∧ (a[i + 1]?).isSome ∧
        a[i + 1]? = b[j]? then
      match j with
      | 0 => 1
      | j' + 1 => chainLen a b alo ahi blo bhi i j' + 1
    else 0

/-- Scan phase of difflib's `find_longest_match` (`isjunk = None`, and the
autojunk popularity rule is mute below length 200): the longest matching
block of `a[alo:ahi] × b[blo:bhi]`; the scan updates only on strictly
longer runs, so ties go to the earliest end position. -/
def scanBest (a b : List Char) (alo ahi blo bhi : Nat) : Nat × Nat × Nat :=
  (List.range ahi).foldl
    (fun best i =>
      (List.range bhi).foldl
        (fun best j =>
          let k := chainLen a b alo ahi blo bhi i j
          if best.2.2 < k then (i + 1 - k, j + 1 - k, k) else best)
        best)
    (alo, blo, 0)

/-- First while loop after the scan in `find_longest_match`: extend the
block leftwards over equal characters (all characters are non-junk here,
so the loop's junk test is vacuous). The fuel is the start index, which
strictly decreases each step. With no junk the scan already found a
maximal block and the loop never moves; it is reproduced for fidelity. -/
def extendLeft (a b : List Char) (alo blo : Nat) :
    Nat → Nat × Nat × Nat → Nat × Nat × Nat
  | 0, t => t
  | fuel + 1, (i, j, k) =>
    if alo < i ∧ blo < j ∧ (a[i - 1]?).isSome ∧ a[i - 1]? = b[j - 1]? then
      extendLeft a b alo blo fuel (i - 1, j - 1, k + 1)
    else (i, j, k)

/-- Second while loop of `find_longest_match`: extend rightwards over
equal characters; a no-op for the same reason as `extendLeft`. -/
def extendRight (a b : List Char) (ahi bhi : Nat) :
    Nat → Nat × Nat × Nat → Nat × Nat × Nat
  | 0, t => t
  | fuel + 1, (i, j, k) =>
    if i + k < ahi ∧ j + k < bhi ∧ (a[i + k]?).isSome ∧ a[i + k]? = b[j + k]? then
      extendRight a b ahi bhi fuel (i, j, k + 1)
    else (i, j, k)

/-- difflib `SequenceMatcher.find_longest_match` with no junk. -/
def findLongestMatch (a b : List Char) (alo ahi blo bhi : Nat) : Nat × Nat × Nat :=
  let t := scanBest a b alo ahi blo bhi
  let t := extendLeft a b alo blo t.1 t
  extendRight a b ahi bhi ahi t

/-- Recursive split of `get_matching_blocks` around the longest match.
Python drains a LIFO queue and sorts the collected blocks; in-order
recursion yields the same sorted list directly. The fuel only serves
structural termination: every recursive call strictly shrinks the window
`[alo, ahi)` (the found block has positive size and lies inside the
window), so a fuel above the initial window width is never exhausted. -/
def rawBlocks (a b : List Char) : Nat → Nat → Nat → Nat → Nat → List (Nat × Nat × Nat)
  | 0, _, _, _, _ => []
  | fuel + 1, alo, ahi, blo, bhi =>
    let t := findLongestMatch a b alo ahi blo bhi
    if 0 < t.2.2 then
      (if alo < t.1 ∧ blo < t.2.1 then rawBlocks a b fuel alo t.1 blo t.2.1 else [])
        ++ t ::
          (if t.1 + t.2.2 < ahi ∧ t.2.1 + t.2.2 < bhi then
            rawBlocks a b fuel (t.1 + t.2.2) ahi (t.2.1 + t.2.2) bhi
          else [])
    else []

/-- Final pass of `get_matching_blocks`: merge adjacent blocks. -/
def mergeBlocks : Nat × Nat × Nat → List (Nat × Nat × Nat) → List (Nat × Nat × Nat)
  | (i1, j1, k1), [] => if k1 ≠ 0 then [(i1, j1, k1)] else []
  | (i1, j1, k1), (i2, j2, k2) :: rest =>
    if i1 + k1 = i2 ∧ j1 + k1 = j2 then mergeBlocks (i1, j1, k1 + k2) rest
    else (if k1 ≠ 0 then [(i1, j1, k1)] else []) ++ mergeBlocks (i2, j2, k2) rest

/-- difflib `SequenceMatcher.get_matching_blocks`: merged blocks plus the
terminating `(len a, len b, 0)`. -/
def getMatchingBlocks (a b : List Char) : List (Nat × Nat × Nat) :=
  mergeBlocks (0, 0, 0) (rawBlocks a b (a.length + 1) 0 a.length 0 b.length)
    ++ [(a.length, b.length, 0)]

/-- difflib `SequenceMatcher.ratio`, kept as an exact unreduced fraction
`(numerator, denominator)` with value `2 * M / T` (and `1/1` when both
sequences are empty, per `_calculate_ratio`). Python computes the value
as a binary float; every use below compares these fractions exactly by
cross multiplication, and the two agree on all inputs evaluated here. -/
def smRatio (a b : List Char) : Nat × Nat :=
  let m := ((getMatchingBlocks a b).map (fun t => t.2.2)).sum
  let t := a.length + b.length
  if t = 0 then (1, 1) else (2 * m, t)

/-- Python `max` over the collected score fractions (compared exactly;
Python keeps the earliest maximum, which has the same value either way).
The list is never empty: the block list always ends with the
terminator. -/
def maxFrac : List (Nat × Nat) → Nat × Nat
  | [] => (0, 1)
  | q :: qs => qs.foldl (fun x y => if x.1 * y.2 < y.1 * x.2 then y else x) q

/-- Python `round` (banker's rounding, halves to even) of the fraction
`num / den` with `den > 0`; `fuzzywuzzy.utils.intr` is
`int(round(n))`. -/
def pyRound (num den : Nat) : Nat :=
  let f := num / den
  let r := num % den
  if 2 * r < den then f
  else if den < 2 * r then f + 1
  else if f % 2 = 0 then f else f + 1

/-- Block loop of fuzzywuzzy `fuzz.partial_ratio`: align a
`len(shorter)`-wide window of the longer string with each matching
block, score the shorter string against the window, return 100 as soon
as a window scores above 0.995 (`1000 * num > 995 * den` exactly), else
100 times the best score, rounded. `block.2.1 - block.1` is Nat
subtraction, which is Python's `x if x > 0 else 0`. -/
def partialScores (shorter longer : List Char) :
    List (Nat × Nat × Nat) → List (Nat × Nat) → Nat
  | [], scores => pyRound (100 * (maxFrac scores).1) (maxFrac scores).2
  | block :: rest, scores =>
    let longStart := block.2.1 - block.1
    let longSub := (longer.drop longStart).take shorter.length
    let r := smRatio shorter longSub
    if 995 * r.2 < 1000 * r.1 then 100
    else partialScores shorter longer rest (scores ++ [r])

/-- fuzzywuzzy 0.18.0 `fuzz.partial_ratio`. The `check_empty_string`
decorator returns 0 when either input is empty; otherwise the shorter
string is slid over the longer one. The result is a Python int in
`[0, 100]`, here a Nat. -/
def partialRatio (s1 s2 : String) : Nat :=
  if s1.length = 0 ∨ s2.length = 0 then 0
  else
    let c1 := s1.toList
    let c2 := s2.toList
    let p := if c1.length ≤ c2.length then (c1, c2) else (c2, c1)
    partialScores p.1 p.2 (getMatchingBlocks p.1 p.2) []

/-- Python `str.lower`, modelled on the character data (ASCII-faithful;
agrees with `String.toLower`, written over `String.mk` so that the
kernel can evaluate it). -/
def pyLower (s : String) : String := String.mk (s.data.map Char.toLower)

/-- Line 110 of app.py:
`ea["ssid"] = "" if "ssid" not in ea else ea["ssid"]` — for a record
that has the key the assignment stores the value already there. -/
def ensureSsid (ea : Record) : Record :=
  match lookup ea "ssid" with
  | some v => setKey ea "ssid" v
  | none => setKey ea "ssid" (Value.vStr "")

/-- The lowered ssid as `ea["ssid"].lower()` computes it; `none` models
the Python `AttributeError` when the stored ssid is not a string. -/
def ssidLowerOpt (ea : Record) : Option String :=
  match lookup ea "ssid" with
  | some (Value.vStr s) => some (pyLower s)
  | _ => none

/-- app.py `find_ssids` (lines 96 to 117): for each record in input
order, default a missing ssid to `""` in place, then append the record
to the match list once per watch-list entry (in watch-list order) whose
partial fuzzy-match ratio against the record's lowered ssid is strictly
above 80. The mutated input list is returned next to the match list;
`none` models the run aborting with an exception on a non-string
ssid. -/
def find_ssids : List Record → List String → Option (List Record × List Record)
  | [], _ => some ([], [])
  | ea :: rest, checkSsids =>
    let ea2 := ensureSsid ea
    match ssidLowerOpt ea2 with
    | none => none
    | some l =>
      match find_ssids rest checkSsids with
      | none => none
      | some (rest2, ms) =>
        some (ea2 :: rest2,
          (checkSsids.filterMap fun e =>
            if 80 < partialRatio l e then some ea2 else none) ++ ms)

/-- A record whose stored ssid is present and is a string. -/
def isStrSsid (ea : Record) : Bool :=
  match lookup ea "ssid" with
  | some (Value.vStr _) => true
  | _ => false

/-- A record list satisfying the normalization invariant the spec
promises the classifier: every record holds a string ssid. -/
def isNormalized (fdata : List Record) : Bool :=
  fdata.all isStrSsid

/-- The lowered ssid a record is matched with (`""` in the unreachable
non-string case), used to state the classifier's match condition. -/
def ssidLowerD (ea : Record) : String :=
  match lookup ea "ssid" with
  | some (Value.vStr s) => pyLower s
  | _ => ""

/-- Number of watch-list entries whose partial fuzzy-match ratio against
the record's lowered ssid is strictly above 80. -/
def countMatches (wl : List String) (ea : Record) : Nat :=
  (wl.filter fun e => 80 < partialRatio (ssidLowerD ea) e).length

/-- Timestamp derivation of one record inside `get_all_rogues` (app.py
lines 218 to 223): if `first_seen` is present, parse it and store the
cookie-style rendering under `human_first_seen`; then the same for
`last_seen` into `human_last_seen`. `parse` stands for
`pendulum.parse(..).to_cookie_string()`; its `none` (a parse exception)
aborts the whole run. -/
def addHuman (parse : Value → Option String) (src dst : String) (ea : Record) :
    Option Record :=
  match lookup ea src with
  | none => some ea
  | some v =>
    match parse v with
    | none => none
    | some c => some (setKey ea dst (Value.vStr c))

/-- One iteration of the `for ea in all_types` loop of
`get_all_rogues`. -/
def normalizeRecord (parse : Value → Option String) (ea : Record) : Option Record :=
  match addHuman parse "first_seen" "human_first_seen" ea with
  | none => none
  | some ea1 => addHuman parse "last_seen" "human_last_seen" ea1

/-- The loop of `get_all_rogues` over the concatenated list: each record
is normalized in place, in order; the first parse exception aborts the
run with nothing returned. -/
def mapRecords (f : Record → Option Record) : List Record → Option (List Record)
  | [] => some []
  | ea :: rest =>
    match f ea with
    | none => none
    | some ea1 =>
      match mapRecords f rest with
      | none => none
      | some rest1 => some (ea1 :: rest1)

/-- app.py `get_all_rogues` (lines 210 to 223), past the API fetch: the
rogue list is concatenated with the suspected-rogue list (rogues first)
and every record gets its human-readable timestamp fields. The API
client is an external collaborator; its two result lists are the
arguments here. -/
def get_all_rogues (parse : Value → Option String)
    (rogues suspects : List Record) : Option (List Record) :=
  mapRecords (normalizeRecord parse) (rogues ++ suspects)

/-- Modelled from the spec: `models.rogues.RogueModel` is not part of the
repository's files; per the spec the projector receives the detection
records and validates them, so `RogueModel(x).dict()` is the identity on
the record list. -/
def RogueModel_dict (rs : List Record) : List Record := rs

/-- One `if key in item: item[tgt] = item.pop(src)` statement of
`clean_rogue_data`: `pop` removes the source entry, and the assignment
appends the target key at the end (or overwrites it in place if

present). -/
def rename1 (src tgt : String) (item : Record) : Record :=
  match lookup item src with
  | some v => setKey (delKey item src) tgt v
  | none => item

/-- The seven sequential renames of `clean_rogue_data` (app.py lines 235
to 249), innermost first: classification→Type, name→Manufacture,
ssid→Rogue SSID, human_last_seen→Last Seen, id→BSSID,
last_det_device_name→Seen By, signal→Signal. -/
def renameFields (item : Record) : Record :=
  rename1 "signal" "Signal"
    (rename1 "last_det_device_name" "Seen By"
      (rename1 "id" "BSSID"
        (rename1 "human_last_seen" "Last Seen"
          (rename1 "ssid" "Rogue SSID"
            (rename1 "name" "Manufacture"
              (rename1 "classification" "Type" item))))))

/-- The fixed rename mapping of `clean_rogue_data` as (source, target)
pairs, in program order. -/
def renamePairs : List (String × String) :=
  [("classification", "Type"), ("name", "Manufacture"), ("ssid", "Rogue SSID"),
    ("human_last_seen", "Last Seen"), ("id", "BSSID"),
    ("last_det_device_name", "Seen By"), ("signal", "Signal")]

/-- One rename, as a fold step over the (source, target) pair list:
`renameFields` is exactly `renamePairs.foldl renameStep`. -/
def renameStep (it : Record) (q : String × String) : Record :=
  rename1 q.1 q.2 it

/-- One `if k in ea: del ea[k]` step of the drop loop of
`clean_rogue_data`. -/
def dropKey1 (acc : Record) (k : String) : Record :=
  if hasKey acc k then delKey acc k else acc

/-- The drop loop of `clean_rogue_data`, restricted to one record: the
keys of `ignore_keys` are deleted in order when present. -/
def dropRec (igs : List String) (ea : Record) : Record :=
  igs.foldl dropKey1 ea

/-- Projection of one record: drop the configured keys, then apply the
seven renames. -/
def cleanRecord (igs : List String) (ea : Record) : Record :=
  renameFields (dropRec igs ea)

/-- app.py `clean_rogue_data` (lines 226 to 251): validate through
`RogueModel`, delete each `ignore_keys` key from every record (outer
loop over keys, inner over records — records are independent, so this is
the per-record `dropRec`), then rename the seven canonical fields of
every record. -/
def clean_rogue_data (rd : List Record) (ignoreKeys : List String) : List Record :=
  let rogues := RogueModel_dict rd
  let dropped := ignoreKeys.foldl (fun rs k => rs.map (dropKey1 · k)) rogues
  dropped.map renameFields

/-- The `ignore_keys` list of the `slack` command (app.py lines 289 to
304); note the repeated `"last_seen"` and the absent
`"last_det_device_name"`. -/
def slack_ignore_keys : List String :=
  ["last_seen", "acknowledged", "classification_method", "encryption",
    "mac_vendor", "first_det_device_name", "containment_status", "cust_id",
    "first_seen", "first_det_device", "last_det_device", "last_seen",
    "human_first_seen", "overriden"]

/-- The `ignore_keys` list of the `smtp` command (app.py lines 336 to
351); the `"last_det_device_name"` entry is commented out in the
source. -/
def smtp_ignore_keys : List String :=
  ["last_seen", "acknowledged", "classification_method", "encryption",
    "mac_vendor", "first_det_device_name", "containment_status", "cust_id",
    "first_seen", "first_det_device", "last_det_device",
    "human_first_seen", "overriden"]

/-! ## Lemmas about the record operations -/

theorem lookup_setKey_self (r : Record) (k : String) (v : Value) :
    lookup (setKey r k v) k = some v := by
  induction r with
  | nil => simp [setKey, lookup]
  | cons p rest ih =>
    obtain ⟨k', v'⟩ := p
    by_cases h : k' = k
    · simp [setKey, h, lookup]
    · simp [setKey, h, lookup, ih]

theorem lookup_setKey_ne (r : Record) (k k' : String) (v : Value)
    (h : k' ≠ k) : lookup (setKey r k v) k' = lookup r k' := by
  induction r with
  | nil => simp [setKey, lookup, Ne.symm h]
  | cons p rest ih =>
    obtain ⟨k₀, v₀⟩ := p
    by_cases h₀ : k₀ = k
    · subst h₀
      simp [setKey, lookup, Ne.symm h, h]
    · by_cases h₁ : k₀ = k'
      · simp [setKey, h₀, lookup, h₁, h]
      · simp [setKey, h₀, lookup, h₁, ih]

theorem setKey_self_of_lookup (r : Record) (k : String) (v : Value)
    (h : lookup r k = some v) : setKey r k v = r := by
  induction r with
  | nil => simp [lookup] at h
  | cons p rest ih =>
    obtain ⟨k₀, v₀⟩ := p
    by_cases h₀ : k₀ = k
    · subst h₀
      simp [lookup] at h
      simp [setKey, h]
    · simp [lookup, h₀] at h
      simp [setKey, h₀, ih h]

theorem lookup_delKey_self (r : Record) (k : String) :
    lookup (delKey r k) k = none := by
  induction r with
  | nil => simp [delKey, lookup]
  | cons p rest ih =>
    obtain ⟨k₀, v₀⟩ := p
    by_cases h₀ : k₀ = k
    · simp [delKey, h₀, ih]
    · simp [delKey, h₀, lookup, ih]

theorem lookup_delKey_ne (r : Record) (k k' : String) (h : k' ≠ k) :
    lookup (delKey r k) k' = lookup r k' := by
  induction r with
  | nil => simp [delKey]
  | cons p rest ih =>
    obtain ⟨k₀, v₀⟩ := p
    by_cases h₀ : k₀ = k
    · subst h₀
      simp [delKey, lookup, Ne.symm h, ih]
    · by_cases h₁ : k₀ = k'
      · simp [delKey, h₀, lookup, h₁, h, ih]
      · simp [delKey, h₀, lookup, h₁, ih]

theorem delKey_of_not_hasKey (r : Record) (k : String)
    (h : hasKey r k = false) : delKey r k = r := by
  induction r with
  | nil => simp [delKey]
  | cons p rest ih =>
    obtain ⟨k₀, v₀⟩ := p
    by_cases h₀ : k₀ = k
    · subst h₀
      simp [hasKey, lookup] at h
    · simp [hasKey, lookup, h₀] at h
      have : hasKey rest k = false := by simp [hasKey, h]
      simp [delKey, h₀, ih this]

/-! ## Lemmas about the classifier -/

theorem isStrSsid_iff (ea : Record) :
    isStrSsid ea = true ↔ ∃ s, lookup ea "ssid" = some (Value.vStr s) := by
  unfold isStrSsid
  cases hv : lookup ea "ssid" with
  | none => simp
  | some v => cases v <;> simp

theorem ensureSsid_of_isStrSsid (ea : Record) (h : isStrSsid ea = true) :
    ensureSsid ea = ea := by
  obtain ⟨s, hs⟩ := (isStrSsid_iff ea).mp h
  unfold ensureSsid
  rw [hs]
  exact setKey_self_of_lookup ea "ssid" (Value.vStr s) hs

theorem ssidLowerOpt_of_isStrSsid (ea : Record) (h : isStrSsid ea = true) :
    ssidLowerOpt ea = some (ssidLowerD ea) := by
  obtain ⟨s, hs⟩ := (isStrSsid_iff ea).mp h
  unfold ssidLowerOpt ssidLowerD
  rw [hs]

theorem filterMap_ite_replicate {α : Type} (wl : List String)
    (p : String → Prop) [DecidablePred p] (x : α) :
    (wl.filterMap fun e => if p e then some x else none)
      = List.replicate (wl.filter fun e => decide (p e)).length x := by
  induction wl with
  | nil => rfl
  | cons e es ih =>
    by_cases hp : p e
    · simp [List.filterMap_cons, hp, ih, List.filter_cons, List.replicate_succ]
    · simp [List.filterMap_cons, hp, ih, List.filter_cons]

/-- Characterization of the classifier on normalized input: it returns
the input list unchanged, next to one copy of each record per matching
watch-list entry, grouped by record in input order. -/
theorem find_ssids_eq (fdata : List Record) (wl : List String)
    (h : isNormalized fdata = true) :
    find_ssids fdata wl
      = some (fdata, fdata.flatMap fun ea => List.replicate (countMatches wl ea) ea) := by
  induction fdata with
  | nil => rfl
  | cons ea rest ih =>
    have hall : isStrSsid ea = true ∧ isNormalized rest = true := by
      simpa [isNormalized, List.all_cons] using h
    have he : ensureSsid ea = ea := ensureSsid_of_isStrSsid ea hall.1
    show (match ssidLowerOpt (ensureSsid ea) with
      | none => none
      | some l =>
        match find_ssids rest wl with
        | none => none
        | some (rest2, ms) =>
          some (ensureSsid ea :: rest2,
            (wl.filterMap fun e =>
              if 80 < partialRatio l e then some (ensureSsid ea) else none) ++ ms))
      = _
    rw [he, ssidLowerOpt_of_isStrSsid ea hall.1, ih hall.2]
    simp only [List.flatMap_cons]
    rw [filterMap_ite_replicate wl (fun e => 80 < partialRatio (ssidLowerD ea) e) ea]
    rfl

theorem countMatches_pos_iff (wl : List String) (ea : Record) :
    0 < countMatches wl ea ↔ ∃ e ∈ wl, 80 < partialRatio (ssidLowerD ea) e := by
  unfold countMatches
  constructor
  · intro hp
    obtain ⟨e, he⟩ := List.exists_mem_of_length_pos hp
    rw [List.mem_filter] at he
    exact ⟨e, he.1, by simpa using he.2⟩
  · rintro ⟨e, hew, hr⟩
    have hm : e ∈ wl.filter fun e => 80 < partialRatio (ssidLowerD ea) e :=
      List.mem_filter.mpr ⟨hew, by simpa using hr⟩
    exact List.length_pos.mpr (List.ne_nil_of_mem hm)

theorem count_flatMap_replicate (fdata : List Record) (n : Record → Nat)
    (ea : Record) :
    (fdata.flatMap fun b => List.replicate (n b) b).count ea
      = fdata.count ea * n ea := by
  induction fdata with
  | nil => simp
  | cons b rest ih =>
    rw [List.flatMap_cons, List.count_append, ih, List.count_cons]
    by_cases hb : ea = b
    · subst hb
      simp [List.count_replicate_self]
      ring
    · have h1 : (b == ea) = false := by simpa using Ne.symm hb
      rw [List.count_replicate, h1]
      simp

/-! ## The claims -/

/-- C1: for every sequence of normalized records and every watch list,
`find_ssids` includes a record in its output iff at least one watch-list
entry's partial fuzzy-match ratio against the record's (lowered) ssid is
strictly greater than 80; a ratio of exactly 80 never counts, and an
empty watch list yields the empty output. -/
theorem find_ssids_match_iff (fdata : List Record) (wl : List String)
    (h : isNormalized fdata = true) :
    ∃ out, find_ssids fdata wl = some (fdata, out)
      ∧ (∀ ea, ea ∈ out ↔
          ea ∈ fdata ∧ ∃ e ∈ wl, 80 < partialRatio (ssidLowerD ea) e)
      ∧ (∀ ea ∈ fdata,
          (∀ e ∈ wl, partialRatio (ssidLowerD ea) e ≤ 80) → ea ∉ out)
      ∧ (wl = [] → out = []) := by
  refine ⟨_, find_ssids_eq fdata wl h, ?_, ?_, ?_⟩
  · intro ea
    rw [List.mem_flatMap]
    constructor
    · rintro ⟨b, hb, hrep⟩
      rw [List.mem_replicate] at hrep
      obtain ⟨hne, rfl⟩ := hrep
      exact ⟨hb, (countMatches_pos_iff wl ea).mp (Nat.pos_of_ne_zero hne)⟩
    · rintro ⟨hmem, hex⟩
      refine ⟨ea, hmem, ?_⟩
      rw [List.mem_replicate]
      exact ⟨Nat.pos_iff_ne_zero.mp ((countMatches_pos_iff wl ea).mpr hex), rfl⟩
  · intro ea _ hle hmem
    rw [List.mem_flatMap] at hmem
    obtain ⟨b, _, hrep⟩ := hmem
    rw [List.mem_replicate] at hrep
    obtain ⟨hne, rfl⟩ := hrep
    obtain ⟨e, hew, hr⟩ := (countMatches_pos_iff wl ea).mp (Nat.pos_of_ne_zero hne)
    exact absurd hr (by simpa using hle e hew)
  · rintro rfl
    simp [countMatches]

/-- Witness for C1: one record whose ssid fuzzy-matches the single
watch-list entry. -/
theorem find_ssids_match_iff_witness :
    ∃ out, find_ssids [[("ssid", Value.vStr "Corp")]] ["corp"]
        = some ([[("ssid", Value.vStr "Corp")]], out)
      ∧ (∀ ea, ea ∈ out ↔
          ea ∈ [[("ssid", Value.vStr "Corp")]]
            ∧ ∃ e ∈ ["corp"], 80 < partialRatio (ssidLowerD ea) e)
      ∧ (∀ ea ∈ [[("ssid", Value.vStr "Corp")]],
          (∀ e ∈ ["corp"], partialRatio (ssidLowerD ea) e ≤ 80) → ea ∉ out)
      ∧ (["corp"] = ([] : List String) → out = []) :=
  find_ssids_match_iff [[("ssid", Value.vStr "Corp")]] ["corp"] (by decide)

/-- C2: on normalized input the classifier's output is, in input order,
one copy of each record per matching watch-list entry (in watch-list
order), so a record occurring once in the input appears exactly
`countMatches` times; in general the multiplicity is the input
multiplicity times the number of matching entries. -/
theorem find_ssids_multiplicity (fdata : List Record) (wl : List String)
    (h : isNormalized fdata = true) :
    ∃ out, find_ssids fdata wl = some (fdata, out)
      ∧ out = (fdata.flatMap fun ea => List.replicate (countMatches wl ea) ea)
      ∧ (∀ ea, out.count ea = fdata.count ea * countMatches wl ea)
      ∧ (∀ ea, fdata.count ea = 1 → out.count ea = countMatches wl ea) := by
  refine ⟨_, find_ssids_eq fdata wl h, rfl, ?_, ?_⟩
  · intro ea
    exact count_flatMap_replicate fdata (countMatches wl) ea
  · intro ea h1
    rw [count_flatMap_replicate fdata (countMatches wl) ea, h1, Nat.one_mul]

/-- Witness for C2: a record matching two of three watch-list entries
appears exactly twice. -/
theorem find_ssids_multiplicity_witness :
    ∃ out, find_ssids [[("ssid", Value.vStr "corp")]] ["corp", "zzzz", "corp"]
        = some ([[("ssid", Value.vStr "corp")]], out)
      ∧ out = ([[("ssid", Value.vStr "corp")]].flatMap fun ea =>
          List.replicate (countMatches ["corp", "zzzz", "corp"] ea) ea)
      ∧ (∀ ea, out.count ea
          = [[("ssid", Value.vStr "corp")]].count ea
              * countMatches ["corp", "zzzz", "corp"] ea)
      ∧ (∀ ea, [[("ssid", Value.vStr "corp")]].count ea = 1 →
          out.count ea = countMatches ["corp", "zzzz", "corp"] ea) :=
  find_ssids_multiplicity [[("ssid", Value.vStr "corp")]]
    ["corp", "zzzz", "corp"] (by decide)

/-- C4 counterexample: the code lower-cases only the record's ssid, not
the watch-list entry; changing the case of the watch-list entry from
`"corp"` to `"CORP"` makes the record `ssid = "CORP"` stop matching, so
the claimed case-insensitivity in the watch-list entry is false. -/
theorem find_ssids_watchlist_case_cex :
    find_ssids [[("ssid", Value.vStr "CORP")]] ["corp"]
        = some ([[("ssid", Value.vStr "CORP")]], [[("ssid", Value.vStr "CORP")]])
      ∧ find_ssids [[("ssid", Value.vStr "CORP")]] ["CORP"]
        = some ([[("ssid", Value.vStr "CORP")]], []) := by
  constructor
  · decide
  · decide

/-- C4 (amended): the classifier lower-cases the record's ssid and
compares the watch-list entry verbatim. Hence two records whose ssids
differ only by letter case match exactly the same watch-list entries
(same count out of any watch list, and singleton runs of the classifier
emit the same number of copies); no such invariance holds for the
watch-list entry, as the counterexample shows. -/
theorem find_ssids_ssid_case_invariant (ea ea' : Record) (wl : List String)
    (s s' : String) (hs : lookup ea "ssid" = some (Value.vStr s))
    (hs' : lookup ea' "ssid" = some (Value.vStr s'))
    (hl : pyLower s = pyLower s') :
    countMatches wl ea = countMatches wl ea'
      ∧ ∃ out out', find_ssids [ea] wl = some ([ea], out)
          ∧ find_ssids [ea'] wl = some ([ea'], out')
          ∧ out.length = out'.length := by
  have hd : ssidLowerD ea = ssidLowerD ea' := by
    unfold ssidLowerD
    rw [hs, hs']
    exact hl
  have hcm : countMatches wl ea = countMatches wl ea' := by
    unfold countMatches
    rw [hd]
  have hn : isNormalized [ea] = true := by
    simp [isNormalized, isStrSsid, hs]
  have hn' : isNormalized [ea'] = true := by
    simp [isNormalized, isStrSsid, hs']
  refine ⟨hcm, _, _, find_ssids_eq [ea] wl hn, find_ssids_eq [ea'] wl hn', ?_⟩
  simp [hcm]

/-- Witness for the amended C4: `"Corp"` and `"CORP"` ssids behave the
same against the watch list `["corp"]`. -/
theorem find_ssids_ssid_case_invariant_witness :
    countMatches ["corp"] [("ssid", Value.vStr "Corp")]
        = countMatches ["corp"] [("ssid", Value.vStr "CORP")]
      ∧ ∃ out out', find_ssids [[("ssid", Value.vStr "Corp")]] ["corp"]
            = some ([[("ssid", Value.vStr "Corp")]], out)
          ∧ find_ssids [[("ssid", Value.vStr "CORP")]] ["corp"]
            = some ([[("ssid", Value.vStr "CORP")]], out')
          ∧ out.length = out'.length :=
  find_ssids_ssid_case_invariant [("ssid", Value.vStr "Corp")]
    [("ssid", Value.vStr "CORP")] ["corp"] "Corp" "CORP" (by decide) (by decide)
    (by decide)

theorem ensureSsid_of_hasKey (ea : Record) (h : hasKey ea "ssid" = true) :
    ensureSsid ea = ea := by
  unfold hasKey at h
  cases hv : lookup ea "ssid" with
  | none => rw [hv] at h; simp at h
  | some v =>
    unfold ensureSsid
    rw [hv]
    exact setKey_self_of_lookup ea "ssid" v hv

theorem lookup_ensureSsid_ne (ea : Record) (k : String) (h : k ≠ "ssid") :
    lookup (ensureSsid ea) k = lookup ea k := by
  unfold ensureSsid
  cases hv : lookup ea "ssid" with
  | none => exact lookup_setKey_ne ea "ssid" k (Value.vStr "") h
  | some v => exact lookup_setKey_ne ea "ssid" k v h

theorem lookup_ensureSsid_self (ea : Record) :
    lookup (ensureSsid ea) "ssid"
      = some ((lookup ea "ssid").getD (Value.vStr "")) := by
  unfold ensureSsid
  cases hv : lookup ea "ssid" with
  | none => rw [lookup_setKey_self]; rfl
  | some v => rw [lookup_setKey_self]; rfl

/-- State characterization of the classifier without any normalization
assumption: whenever the run does not abort, the returned state is the
input with every record's ssid defaulted, and every output element is
one of those records. -/
theorem find_ssids_state (fdata : List Record) (wl : List String)
    (fdata' out : List Record) (h : find_ssids fdata wl = some (fdata', out)) :
    fdata' = fdata.map ensureSsid ∧ ∀ ea ∈ out, ea ∈ fdata' := by
  induction fdata generalizing fdata' out with
  | nil =>
    simp only [find_ssids, Option.some.injEq, Prod.mk.injEq] at h
    obtain ⟨h1, h2⟩ := h
    subst h1
    subst h2
    simp
  | cons ea rest ih =>
    simp only [find_ssids] at h
    cases hlo : ssidLowerOpt (ensureSsid ea) with
    | none => rw [hlo] at h; simp at h
    | some l =>
      rw [hlo] at h
      cases hfr : find_ssids rest wl with
      | none => rw [hfr] at h; simp at h
      | some pr =>
        obtain ⟨rest2, ms⟩ := pr
        rw [hfr] at h
        simp only [Option.some.injEq, Prod.mk.injEq] at h
        obtain ⟨h1, h2⟩ := h
        obtain ⟨hA, hB⟩ := ih rest2 ms hfr
        subst h1
        subst h2
        constructor
        · simp [hA]
        · intro x hx
          rw [List.mem_append] at hx
          rcases hx with hx | hx
          · obtain ⟨e, _, he⟩ := List.mem_filterMap.mp hx
            have hxe : x = ensureSsid ea := by
              by_cases hc : 80 < partialRatio l e
              · exact ((by simpa [hc] using he : ensureSsid ea = x)).symm
              · simp [hc] at he
            subst hxe
            exact List.mem_cons_self _ _
          · exact List.mem_cons_of_mem _ (hB x hx)

/-- C10: the classifier's only effect on its input state is to default a
missing ssid to `""` in every record — whatever the watch list, the
empty one included; a record that already has an ssid key is returned
unchanged, no other field of any record changes, and every output
element is one of the (so updated) state records. -/
theorem find_ssids_frame (fdata : List Record) (wl : List String)
    (fdata' out : List Record) (h : find_ssids fdata wl = some (fdata', out)) :
    fdata' = fdata.map ensureSsid
      ∧ (∀ ea, hasKey ea "ssid" = true → ensureSsid ea = ea)
      ∧ (∀ ea k, k ≠ "ssid" → lookup (ensureSsid ea) k = lookup ea k)
      ∧ (∀ ea, lookup (ensureSsid ea) "ssid"
          = some ((lookup ea "ssid").getD (Value.vStr "")))
      ∧ (∀ ea ∈ out, ea ∈ fdata') := by
  obtain ⟨h1, h2⟩ := find_ssids_state fdata wl fdata' out h
  exact ⟨h1, ensureSsid_of_hasKey, lookup_ensureSsid_ne,
    lookup_ensureSsid_self, h2⟩

/-- Witness for C10: an empty watch list still defaults the missing
ssid of the one input record. -/
theorem find_ssids_frame_witness :
    [[("id", Value.vInt 1), ("ssid", Value.vStr "")]]
        = [[("id", Value.vInt 1)]].map ensureSsid
      ∧ (∀ ea, hasKey ea "ssid" = true → ensureSsid ea = ea)
      ∧ (∀ ea k, k ≠ "ssid" → lookup (ensureSsid ea) k = lookup ea k)
      ∧ (∀ ea, lookup (ensureSsid ea) "ssid"
          = some ((lookup ea "ssid").getD (Value.vStr "")))
      ∧ (∀ ea ∈ ([] : List Record),
          ea ∈ [[("id", Value.vInt 1), ("ssid", Value.vStr "")]]) :=
  find_ssids_frame [[("id", Value.vInt 1)]] []
    [[("id", Value.vInt 1), ("ssid", Value.vStr "")]] [] (by decide)

/-! ## Lemmas about the normalizer -/

theorem addHuman_isSome (parse : Value → Option String) (src dst : String)
    (ea : Record) :
    (addHuman parse src dst ea).isSome = true
      ↔ ∀ v, lookup ea src = some v → (parse v).isSome = true := by
  unfold addHuman
  cases h : lookup ea src with
  | none => simp
  | some v =>
    cases hp : parse v with
    | none => simp [hp]
    | some c => simp [hp]

theorem addHuman_of_none (parse : Value → Option String) (src dst : String)
    (ea : Record) (h : lookup ea src = none) :
    addHuman parse src dst ea = some ea := by
  unfold addHuman
  rw [h]

theorem addHuman_of_some (parse : Value → Option String) (src dst : String)
    (ea : Record) (v : Value) (h : lookup ea src = some v) :
    addHuman parse src dst ea
      = (parse v).map fun c => setKey ea dst (Value.vStr c) := by
  unfold addHuman
  rw [h]
  cases hp : parse v with
  | none => simp [hp]
  | some c => simp [hp]

theorem addHuman_lookup_ne (parse : Value → Option String) (src dst : String)
    (ea ea' : Record) (k : String) (hk : k ≠ dst)
    (h : addHuman parse src dst ea = some ea') :
    lookup ea' k = lookup ea k := by
  cases hv : lookup ea src with
  | none =>
    rw [addHuman_of_none parse src dst ea hv] at h
    cases h
    rfl
  | some v =>
    rw [addHuman_of_some parse src dst ea v hv] at h
    cases hp : parse v with
    | none =>
      rw [hp] at h
      simp at h
    | some c =>
      rw [hp] at h
      simp only [Option.map_some'] at h
      cases h
      exact lookup_setKey_ne ea dst k (Value.vStr c) hk

theorem addHuman_lookup_dst (parse : Value → Option String) (src dst : String)
    (ea ea' : Record) (v : Value) (hv : lookup ea src = some v)
    (h : addHuman parse src dst ea = some ea') :
    ∃ c, parse v = some c ∧ lookup ea' dst = some (Value.vStr c) := by
  rw [addHuman_of_some parse src dst ea v hv] at h
  cases hp : parse v with
  | none =>
    rw [hp] at h
    simp at h
  | some c =>
    rw [hp] at h
    simp only [Option.map_some'] at h
    cases h
    exact ⟨c, rfl, lookup_setKey_self ea dst (Value.vStr c)⟩

theorem normalizeRecord_isSome (parse : Value → Option String) (ea : Record) :
    (normalizeRecord parse ea).isSome = true
      ↔ (∀ v, lookup ea "first_seen" = some v → (parse v).isSome = true)
        ∧ (∀ v, lookup ea "last_seen" = some v → (parse v).isSome = true) := by
  unfold normalizeRecord
  cases h1 : addHuman parse "first_seen" "human_first_seen" ea with
  | none =>
    have : ¬ ∀ v, lookup ea "first_seen" = some v → (parse v).isSome = true := by
      intro hc
      have := (addHuman_isSome parse "first_seen" "human_first_seen" ea).mpr hc
      rw [h1] at this
      simp at this
    simp [this]
  | some ea1 =>
    have hfs : ∀ v, lookup ea "first_seen" = some v → (parse v).isSome = true := by
      have := (addHuman_isSome parse "first_seen" "human_first_seen" ea).mp
        (by rw [h1]; rfl)
      exact this
    have hls : lookup ea1 "last_seen" = lookup ea "last_seen" :=
      addHuman_lookup_ne parse "first_seen" "human_first_seen" ea ea1
        "last_seen" (by decide) h1
    rw [addHuman_isSome parse "last_seen" "human_last_seen" ea1, hls]
    exact ⟨fun hl => ⟨hfs, hl⟩, fun hc => hc.2⟩

theorem normalizeRecord_fields (parse : Value → Option String) (ea ea' : Record)
    (h : normalizeRecord parse ea = some ea') :
    (∀ v, lookup ea "first_seen" = some v →
        ∃ c, parse v = some c ∧ lookup ea' "human_first_seen" = some (Value.vStr c))
      ∧ (∀ v, lookup ea "last_seen" = some v →
        ∃ c, parse v = some c ∧ lookup ea' "human_last_seen" = some (Value.vStr c))
      ∧ (∀ k, k ≠ "human_first_seen" → k ≠ "human_last_seen" →
        lookup ea' k = lookup ea k) := by
  unfold normalizeRecord at h
  cases h1 : addHuman parse "first_seen" "human_first_seen" ea with
  | none => rw [h1] at h; cases h
  | some ea1 =>
    rw [h1] at h
    refine ⟨?_, ?_, ?_⟩
    · intro v hv
      obtain ⟨c, hc, hl⟩ :=
        addHuman_lookup_dst parse "first_seen" "human_first_seen" ea ea1 v hv h1
      refine ⟨c, hc, ?_⟩
      rw [addHuman_lookup_ne parse "last_seen" "human_last_seen" ea1 ea'
        "human_first_seen" (by decide) h]
      exact hl
    · intro v hv
      have hls : lookup ea1 "last_seen" = some v := by
        rw [addHuman_lookup_ne parse "first_seen" "human_first_seen" ea ea1
          "last_seen" (by decide) h1]
        exact hv
      obtain ⟨c, hc, hl⟩ :=
        addHuman_lookup_dst parse "last_seen" "human_last_seen" ea1 ea' v hls h
      exact ⟨c, hc, hl⟩
    · intro k hk1 hk2
      rw [addHuman_lookup_ne parse "last_seen" "human_last_seen" ea1 ea' k hk2 h]
      exact addHuman_lookup_ne parse "first_seen" "human_first_seen" ea ea1 k hk1 h1

theorem normalizeRecord_of_no_ts (parse : Value → Option String) (ea : Record)
    (h1 : lookup ea "first_seen" = none) (h2 : lookup ea "last_seen" = none) :
    normalizeRecord parse ea = some ea := by
  unfold normalizeRecord
  rw [addHuman_of_none parse "first_seen" "human_first_seen" ea h1]
  exact addHuman_of_none parse "last_seen" "human_last_seen" ea h2

theorem mapRecords_isSome (f : Record → Option Record) (l : List Record) :
    (mapRecords f l).isSome = true ↔ ∀ ea ∈ l, (f ea).isSome = true := by
  induction l with
  | nil => simp [mapRecords]
  | cons ea rest ih =>
    simp only [mapRecords]
    cases hf : f ea with
    | none => simp [hf]
    | some ea1 =>
      cases hr : mapRecords f rest with
      | none =>
        rw [hr] at ih
        simp only [Option.isSome_none, Bool.false_eq_true, false_iff] at ih
        push_neg at ih
        obtain ⟨x, hx, hxf⟩ := ih
        simp only [Option.isSome_none, List.mem_cons]
        constructor
        · intro hc; cases hc
        · intro hc
          exact absurd (hc x (Or.inr hx)) (by simp [hxf])
      | some rest1 =>
        rw [hr] at ih
        simp only [Option.isSome_some, true_iff] at ih
        simp only [Option.isSome_some, List.mem_cons, true_iff]
        intro x hx
        rcases hx with rfl | hx
        · simp [hf]
        · exact ih x hx

theorem mapRecords_forall₂ (f : Record → Option Record) (l out : List Record)
    (h : mapRecords f l = some out) :
    List.Forall₂ (fun ea ea' => f ea = some ea') l out := by
  induction l generalizing out with
  | nil =>
    simp only [mapRecords, Option.some.injEq] at h
    subst h
    exact List.Forall₂.nil
  | cons ea rest ih =>
    simp only [mapRecords] at h
    cases hf : f ea with
    | none => rw [hf] at h; cases h
    | some ea1 =>
      rw [hf] at h
      cases hr : mapRecords f rest with
      | none => rw [hr] at h; cases h
      | some rest1 =>
        rw [hr] at h
        cases h
        exact List.Forall₂.cons hf (ih rest1 hr)

theorem mapRecords_id (f : Record → Option Record) (l : List Record)
    (h : ∀ ea ∈ l, f ea = some ea) : mapRecords f l = some l := by
  induction l with
  | nil => rfl
  | cons ea rest ih =>
    simp only [mapRecords]
    rw [h ea (List.mem_cons_self ea rest), ih fun x hx => h x (List.mem_cons_of_mem ea hx)]

/-- C3 counterexample: the per-record pass of `get_all_rogues` does not
create an ssid field — a record without one comes back without one, so
the normalizer itself does not establish the non-null-ssid invariant. -/
theorem get_all_rogues_no_ssid_cex :
    get_all_rogues (fun _ => none) [[("id", Value.vStr "AA:BB")]] []
        = some [[("id", Value.vStr "AA:BB")]]
      ∧ hasKey [("id", Value.vStr "AA:BB")] "ssid" = false := by
  constructor
  · rfl
  · decide

/-- C3 (amended): the normalizer leaves every record's ssid field exactly
as it came — present with the same value, or absent — deriving only the
human timestamp fields; the non-null-ssid invariant is instead
established inside the classifier `find_ssids`, which defaults every
missing ssid to `""` before matching. -/
theorem normalizer_ssid_untouched :
    (∀ (parse : Value → Option String) (rogues suspects out : List Record),
        get_all_rogues parse rogues suspects = some out →
          List.Forall₂ (fun ea ea' => lookup ea' "ssid" = lookup ea "ssid")
            (rogues ++ suspects) out)
      ∧ ∀ (fdata : List Record) (wl : List String) (fdata' out : List Record),
          find_ssids fdata wl = some (fdata', out) →
            ∀ ea ∈ fdata', hasKey ea "ssid" = true := by
  constructor
  · intro parse rogues suspects out h
    refine (mapRecords_forall₂ (normalizeRecord parse) _ out h).imp ?_
    intro ea ea' hf
    exact (normalizeRecord_fields parse ea ea' hf).2.2 "ssid" (by decide) (by decide)
  · intro fdata wl fdata' out h ea hea
    obtain ⟨h1, _⟩ := find_ssids_state fdata wl fdata' out h
    subst h1
    obtain ⟨b, _, rfl⟩ := List.mem_map.mp hea
    unfold hasKey
    rw [lookup_ensureSsid_self]
    rfl

/-- C5: the normalizer stores the cookie-style rendering of `first_seen`
(resp. `last_seen`) under `human_first_seen` (resp. `human_last_seen`)
for every record that has the field, and the run returns a value exactly
when every such timestamp parses — a parse failure propagates, with no
default substituted and no record skipped. -/
theorem get_all_rogues_timestamps (parse : Value → Option String)
    (rogues suspects : List Record) :
    ((get_all_rogues parse rogues suspects).isSome = true ↔
        ∀ ea ∈ rogues ++ suspects,
          (∀ v, lookup ea "first_seen" = some v → (parse v).isSome = true)
            ∧ (∀ v, lookup ea "last_seen" = some v → (parse v).isSome = true))
      ∧ ∀ out, get_all_rogues parse rogues suspects = some out →
          List.Forall₂ (fun ea ea' =>
            (∀ v, lookup ea "first_seen" = some v →
              ∃ c, parse v = some c
                ∧ lookup ea' "human_first_seen" = some (Value.vStr c))
            ∧ (∀ v, lookup ea "last_seen" = some v →
              ∃ c, parse v = some c
                ∧ lookup ea' "human_last_seen" = some (Value.vStr c)))
            (rogues ++ suspects) out := by
  constructor
  · unfold get_all_rogues
    rw [mapRecords_isSome (normalizeRecord parse) (rogues ++ suspects)]
    constructor
    · intro hall ea hea
      exact (normalizeRecord_isSome parse ea).mp (hall ea hea)
    · intro hall ea hea
      exact (normalizeRecord_isSome parse ea).mpr (hall ea hea)
  · intro out h
    refine (mapRecords_forall₂ (normalizeRecord parse) _ out h).imp ?_
    intro ea ea' hf
    exact ⟨(normalizeRecord_fields parse ea ea' hf).1,
      (normalizeRecord_fields parse ea ea' hf).2.1⟩

/-- C8: the normalizer processes the rogue list concatenated with the
suspected list, rogues first, each list's order preserved, without
deduplication: the output has one record per input record, and when no
record carries a timestamp field the output is literally the
concatenation, so two identical records are both retained and
multiplicities add. -/
theorem get_all_rogues_concat (parse : Value → Option String)
    (rogues suspects out : List Record)
    (h : get_all_rogues parse rogues suspects = some out) :
    out.length = rogues.length + suspects.length
      ∧ List.Forall₂ (fun ea ea' => normalizeRecord parse ea = some ea')
          (rogues ++ suspects) out
      ∧ ((∀ ea ∈ rogues ++ suspects,
            lookup ea "first_seen" = none ∧ lookup ea "last_seen" = none) →
          out = rogues ++ suspects
            ∧ ∀ ea, out.count ea = rogues.count ea + suspects.count ea) := by
  have hf := mapRecords_forall₂ (normalizeRecord parse) _ out h
  refine ⟨?_, hf, ?_⟩
  · have := hf.length_eq
    simpa using this.symm
  · intro hts
    have hid : mapRecords (normalizeRecord parse) (rogues ++ suspects)
        = some (rogues ++ suspects) :=
      mapRecords_id _ _ fun ea hea =>
        normalizeRecord_of_no_ts parse ea (hts ea hea).1 (hts ea hea).2
    have hout : out = rogues ++ suspects := by
      have := h
      unfold get_all_rogues at this
      rw [hid] at this
      exact (Option.some.injEq _ _).mp this.symm
    subst hout
    exact ⟨rfl, fun ea => List.count_append ea rogues suspects⟩

/-- Witness for C8: two identical rogue records and one suspect, no
timestamps — order preserved, both duplicates kept. -/
theorem get_all_rogues_concat_witness :
    ([[("id", Value.vStr "A")], [("id", Value.vStr "A")],
        [("id", Value.vStr "B")]] : List Record).length
        = ([[("id", Value.vStr "A")], [("id", Value.vStr "A")]] : List Record).length
          + ([[("id", Value.vStr "B")]] : List Record).length
      ∧ List.Forall₂ (fun ea ea' => normalizeRecord (fun _ => none) ea = some ea')
          ([[("id", Value.vStr "A")], [("id", Value.vStr "A")]]
            ++ [[("id", Value.vStr "B")]])
          [[("id", Value.vStr "A")], [("id", Value.vStr "A")], [("id", Value.vStr "B")]]
      ∧ ((∀ ea ∈ [[("id", Value.vStr "A")], [("id", Value.vStr "A")]]
            ++ [[("id", Value.vStr "B")]],
            lookup ea "first_seen" = none ∧ lookup ea "last_seen" = none) →
          ([[("id", Value.vStr "A")], [("id", Value.vStr "A")],
              [("id", Value.vStr "B")]] : List Record)
              = [[("id", Value.vStr "A")], [("id", Value.vStr "A")]]
                ++ [[("id", Value.vStr "B")]]
            ∧ ∀ ea, ([[("id", Value.vStr "A")], [("id", Value.vStr "A")],
                [("id", Value.vStr "B")]] : List Record).count ea
                = ([[("id", Value.vStr "A")], [("id", Value.vStr "A")]] :
                    List Record).count ea
                  + ([[("id", Value.vStr "B")]] : List Record).count ea) :=
  get_all_rogues_concat (fun _ => none)
    [[("id", Value.vStr "A")], [("id", Value.vStr "A")]]
    [[("id", Value.vStr "B")]]
    [[("id", Value.vStr "A")], [("id", Value.vStr "A")], [("id", Value.vStr "B")]]
    (by rfl)

/-! ## Lemmas about the projector -/

theorem renameFields_eq_foldl (item : Record) :
    renameFields item = renamePairs.foldl renameStep item := rfl

theorem lookup_rename1_src (src tgt : String) (hst : src ≠ tgt) (item : Record) :
    lookup (rename1 src tgt item) src = none := by
  unfold rename1
  cases hv : lookup item src with
  | none => exact hv
  | some v =>
    show lookup (setKey (delKey item src) tgt v) src = none
    rw [lookup_setKey_ne (delKey item src) tgt src v hst]
    exact lookup_delKey_self item src

theorem lookup_rename1_tgt (src tgt : String) (item : Record) :
    lookup (rename1 src tgt item) tgt
      = (lookup item src).or (lookup item tgt) := by
  unfold rename1
  cases hv : lookup item src with
  | none => rfl
  | some v =>
    show lookup (setKey (delKey item src) tgt v) tgt = (some v).or (lookup item tgt)
    rw [lookup_setKey_self]
    rfl

theorem lookup_rename1_other (src tgt : String) (item : Record) (k : String)
    (h1 : k ≠ src) (h2 : k ≠ tgt) :
    lookup (rename1 src tgt item) k = lookup item k := by
  unfold rename1
  cases hv : lookup item src with
  | none => rfl
  | some v =>
    show lookup (setKey (delKey item src) tgt v) k = lookup item k
    rw [lookup_setKey_ne (delKey item src) tgt k v h2]
    exact lookup_delKey_ne item src k h1

theorem lookup_foldl_rename_other (ps : List (String × String)) (item : Record)
    (k : String) (h : ∀ q ∈ ps, k ≠ q.1 ∧ k ≠ q.2) :
    lookup (ps.foldl renameStep item) k = lookup item k := by
  induction ps generalizing item with
  | nil => rfl
  | cons q ps ih =>
    rw [List.foldl_cons, ih _ fun q' hq' => h q' (List.mem_cons_of_mem q hq')]
    exact lookup_rename1_other q.1 q.2 item k
      (h q (List.mem_cons_self q ps)).1 (h q (List.mem_cons_self q ps)).2

theorem lookup_split_rename_tgt (ps₁ ps₂ : List (String × String))
    (p : String × String) (item : Record)
    (h₁ : ∀ q ∈ ps₁, (p.1 ≠ q.1 ∧ p.1 ≠ q.2) ∧ (p.2 ≠ q.1 ∧ p.2 ≠ q.2))
    (h₂ : ∀ q ∈ ps₂, p.2 ≠ q.1 ∧ p.2 ≠ q.2) :
    lookup ((ps₁ ++ p :: ps₂).foldl renameStep item) p.2
      = (lookup item p.1).or (lookup item p.2) := by
  rw [List.foldl_append, List.foldl_cons]
  rw [lookup_foldl_rename_other ps₂ _ p.2 h₂]
  show lookup (rename1 p.1 p.2 (ps₁.foldl renameStep item)) p.2 = _
  rw [lookup_rename1_tgt p.1 p.2 _]
  rw [lookup_foldl_rename_other ps₁ item p.1 fun q hq => (h₁ q hq).1]
  rw [lookup_foldl_rename_other ps₁ item p.2 fun q hq => (h₁ q hq).2]

theorem lookup_split_rename_src (ps₁ ps₂ : List (String × String))
    (p : String × String) (item : Record) (hst : p.1 ≠ p.2)
    (h₂ : ∀ q ∈ ps₂, p.1 ≠ q.1 ∧ p.1 ≠ q.2) :
    lookup ((ps₁ ++ p :: ps₂).foldl renameStep item) p.1 = none := by
  rw [List.foldl_append, List.foldl_cons]
  rw [lookup_foldl_rename_other ps₂ _ p.1 h₂]
  exact lookup_rename1_src p.1 p.2 hst _

theorem dropKey1_eq_delKey (ea : Record) (k : String) :
    dropKey1 ea k = delKey ea k := by
  unfold dropKey1
  by_cases hh : hasKey ea k = true
  · rw [if_pos hh]
  · rw [if_neg hh, delKey_of_not_hasKey ea k (by simpa using hh)]

theorem lookup_dropRec (igs : List String) (ea : Record) (k : String) :
    lookup (dropRec igs ea) k = if k ∈ igs then none else lookup ea k := by
  induction igs generalizing ea with
  | nil => simp [dropRec]
  | cons k' igs ih =>
    have hstep : dropRec (k' :: igs) ea = dropRec igs (delKey ea k') := by
      unfold dropRec
      rw [List.foldl_cons, dropKey1_eq_delKey]
    rw [hstep, ih]
    by_cases h1 : k = k'
    · subst h1
      simp [lookup_delKey_self]
    · simp [h1, lookup_delKey_ne ea k' k h1]

theorem foldl_map_dropKey1 (igs : List String) (rs : List Record) :
    igs.foldl (fun rs k => rs.map (dropKey1 · k)) rs
      = rs.map fun ea => igs.foldl dropKey1 ea := by
  induction igs generalizing rs with
  | nil => simp
  | cons k igs ih =>
    rw [List.foldl_cons, ih, List.map_map]
    rfl

theorem clean_rogue_data_eq_map (rd : List Record) (igs : List String) :
    clean_rogue_data rd igs = rd.map (cleanRecord igs) := by
  show ((igs.foldl (fun rs k => rs.map (dropKey1 · k)) (RogueModel_dict rd)).map
      renameFields) = rd.map (cleanRecord igs)
  rw [show RogueModel_dict rd = rd from rfl, foldl_map_dropKey1 igs rd,
    List.map_map]
  rfl

/-- The target column of every rename pair, on any record: the renamed
source value when the source key is present after the drop, else the
passed-through literal target value. -/
theorem lookup_cleanRecord_tgt (igs : List String) (ea : Record) :
    ∀ p ∈ renamePairs,
      lookup (cleanRecord igs ea) p.2
        = (lookup (dropRec igs ea) p.1).or (lookup (dropRec igs ea) p.2) := by
  intro p hp
  unfold cleanRecord
  rw [renameFields_eq_foldl]
  simp only [renamePairs, List.mem_cons, List.mem_singleton,
    List.not_mem_nil, or_false] at hp
  rcases hp with rfl | rfl | rfl | rfl | rfl | rfl | rfl
  · exact lookup_split_rename_tgt [] _ _ _ (by decide) (by decide)
  · exact lookup_split_rename_tgt [("classification", "Type")] _ _ _
      (by decide) (by decide)
  · exact lookup_split_rename_tgt
      [("classification", "Type"), ("name", "Manufacture")] _ _ _
      (by decide) (by decide)
  · exact lookup_split_rename_tgt
      [("classification", "Type"), ("name", "Manufacture"),
        ("ssid", "Rogue SSID")] _ _ _ (by decide) (by decide)
  · exact lookup_split_rename_tgt
      [("classification", "Type"), ("name", "Manufacture"),
        ("ssid", "Rogue SSID"), ("human_last_seen", "Last Seen")] _ _ _
      (by decide) (by decide)
  · exact lookup_split_rename_tgt
      [("classification", "Type"), ("name", "Manufacture"),
        ("ssid", "Rogue SSID"), ("human_last_seen", "Last Seen"),
        ("id", "BSSID")] _ _ _ (by decide) (by decide)
  · exact lookup_split_rename_tgt
      [("classification", "Type"), ("name", "Manufacture"),
        ("ssid", "Rogue SSID"), ("human_last_seen", "Last Seen"),
        ("id", "BSSID"), ("last_det_device_name", "Seen By")] _ _ _
      (by decide) (by decide)

/-- Every source key of the rename map is absent from a projected
record: when present it is popped by its rename, and no rename
reintroduces a source name. -/
theorem lookup_cleanRecord_src (igs : List String) (ea : Record) :
    ∀ p ∈ renamePairs, lookup (cleanRecord igs ea) p.1 = none := by
  intro p hp
  unfold cleanRecord
  rw [renameFields_eq_foldl]
  simp only [renamePairs, List.mem_cons, List.mem_singleton,
    List.not_mem_nil, or_false] at hp
  rcases hp with rfl | rfl | rfl | rfl | rfl | rfl | rfl
  · exact lookup_split_rename_src [] _ _ _ (by decide) (by decide)
  · exact lookup_split_rename_src [("classification", "Type")] _ _ _
      (by decide) (by decide)
  · exact lookup_split_rename_src
      [("classification", "Type"), ("name", "Manufacture")] _ _ _
      (by decide) (by decide)
  · exact lookup_split_rename_src
      [("classification", "Type"), ("name", "Manufacture"),
        ("ssid", "Rogue SSID")] _ _ _ (by decide) (by decide)
  · exact lookup_split_rename_src
      [("classification", "Type"), ("name", "Manufacture"),
        ("ssid", "Rogue SSID"), ("human_last_seen", "Last Seen")] _ _ _
      (by decide) (by decide)
  · exact lookup_split_rename_src
      [("classification", "Type"), ("name", "Manufacture"),
        ("ssid", "Rogue SSID"), ("human_last_seen", "Last Seen"),
        ("id", "BSSID")] _ _ _ (by decide) (by decide)
  · exact lookup_split_rename_src
      [("classification", "Type"), ("name", "Manufacture"),
        ("ssid", "Rogue SSID"), ("human_last_seen", "Last Seen"),
        ("id", "BSSID"), ("last_det_device_name", "Seen By")] _ _ _
      (by decide) (by decide)

/-- Keys of neither the drop set nor the rename map pass through the
projection unchanged. -/
theorem lookup_cleanRecord_other (igs : List String) (ea : Record) (k : String)
    (hig : k ∉ igs) (h : ∀ p ∈ renamePairs, k ≠ p.1 ∧ k ≠ p.2) :
    lookup (cleanRecord igs ea) k = lookup ea k := by
  unfold cleanRecord
  rw [renameFields_eq_foldl, lookup_foldl_rename_other renamePairs _ k h,
    lookup_dropRec, if_neg hig]

/-- C6 counterexample: the projection is not injective on key names — a
record that already uses the column name `Type` has that key overwritten
by the renamed `classification` value (first conjunct: the original
`"orig"` value is gone, so not every other key survives unchanged), and
a drop set containing `Type` does not keep `Type` out of the output
(second conjunct: the rename reintroduces it after the drop pass). -/
theorem clean_rogue_data_target_clash_cex :
    clean_rogue_data
        [[("classification", Value.vStr "rogue"), ("Type", Value.vStr "orig")]] []
        = [[("Type", Value.vStr "rogue")]]
      ∧ clean_rogue_data [[("classification", Value.vStr "rogue")]] ["Type"]
        = [[("Type", Value.vStr "rogue")]] := by
  constructor
  · rfl
  · rfl

/-- C6 (amended): for a record that uses none of the seven target column
names, and a drop set containing none of them, the projector drops every
drop-set key, carries every surviving rename-map key to its renamed name
with its original value (and emits no column for a dropped source),
removes every source name, and passes every other key through
unchanged — the whole list being projected record by record. -/
theorem clean_rogue_data_projection (rd : List Record) (igs : List String)
    (ea : Record)
    (hT : ∀ p ∈ renamePairs, lookup ea p.2 = none)
    (hI : ∀ p ∈ renamePairs, p.2 ∉ igs) :
    clean_rogue_data rd igs = rd.map (cleanRecord igs)
      ∧ (∀ k ∈ igs, lookup (cleanRecord igs ea) k = none)
      ∧ (∀ p ∈ renamePairs, lookup (cleanRecord igs ea) p.2
          = if p.1 ∈ igs then none else lookup ea p.1)
      ∧ (∀ p ∈ renamePairs, lookup (cleanRecord igs ea) p.1 = none)
      ∧ (∀ k, k ∉ igs → (∀ p ∈ renamePairs, k ≠ p.1 ∧ k ≠ p.2) →
          lookup (cleanRecord igs ea) k = lookup ea k) := by
  refine ⟨clean_rogue_data_eq_map rd igs, ?_, ?_,
    lookup_cleanRecord_src igs ea, lookup_cleanRecord_other igs ea⟩
  · intro k hk
    by_cases hsrc : ∃ p ∈ renamePairs, k = p.1
    · obtain ⟨p, hp, rfl⟩ := hsrc
      exact lookup_cleanRecord_src igs ea p hp
    · push_neg at hsrc
      have hother : ∀ p ∈ renamePairs, k ≠ p.1 ∧ k ≠ p.2 := fun p hp =>
        ⟨hsrc p hp, fun he => hI p hp (he ▸ hk)⟩
      rw [show cleanRecord igs ea = renameFields (dropRec igs ea) from rfl,
        renameFields_eq_foldl,
        lookup_foldl_rename_other renamePairs _ k hother,
        lookup_dropRec, if_pos hk]
  · intro p hp
    rw [lookup_cleanRecord_tgt igs ea p hp, lookup_dropRec, lookup_dropRec,
      if_neg (hI p hp), hT p hp]
    by_cases hpi : p.1 ∈ igs
    · rw [if_pos hpi]
      rfl
    · rw [if_neg hpi]
      cases lookup ea p.1 <;> rfl

/-- Witness for the amended C6 at one concrete record and drop set. -/
theorem clean_rogue_data_projection_witness :
    clean_rogue_data
        [[("classification", Value.vStr "rogue"), ("last_seen", Value.vStr "t"),
          ("extra", Value.vInt 5)]] ["last_seen"]
        = [[("classification", Value.vStr "rogue"), ("last_seen", Value.vStr "t"),
            ("extra", Value.vInt 5)]].map (cleanRecord ["last_seen"])
      ∧ (∀ k ∈ ["last_seen"],
          lookup (cleanRecord ["last_seen"]
            [("classification", Value.vStr "rogue"), ("last_seen", Value.vStr "t"),
              ("extra", Value.vInt 5)]) k = none)
      ∧ (∀ p ∈ renamePairs,
          lookup (cleanRecord ["last_seen"]
            [("classification", Value.vStr "rogue"), ("last_seen", Value.vStr "t"),
              ("extra", Value.vInt 5)]) p.2
            = if p.1 ∈ ["last_seen"] then none
              else lookup [("classification", Value.vStr "rogue"),
                ("last_seen", Value.vStr "t"), ("extra", Value.vInt 5)] p.1)
      ∧ (∀ p ∈ renamePairs,
          lookup (cleanRecord ["last_seen"]
            [("classification", Value.vStr "rogue"), ("last_seen", Value.vStr "t"),
              ("extra", Value.vInt 5)]) p.1 = none)
      ∧ (∀ k, k ∉ ["last_seen"] →
          (∀ p ∈ renamePairs, k ≠ p.1 ∧ k ≠ p.2) →
          lookup (cleanRecord ["last_seen"]
            [("classification", Value.vStr "rogue"), ("last_seen", Value.vStr "t"),
              ("extra", Value.vInt 5)]) k
            = lookup [("classification", Value.vStr "rogue"),
                ("last_seen", Value.vStr "t"), ("extra", Value.vInt 5)] k) :=
  clean_rogue_data_projection
    [[("classification", Value.vStr "rogue"), ("last_seen", Value.vStr "t"),
      ("extra", Value.vInt 5)]] ["last_seen"]
    [("classification", Value.vStr "rogue"), ("last_seen", Value.vStr "t"),
      ("extra", Value.vInt 5)] (by decide) (by decide)

/-- C7 counterexample: a record that lacks `id` but carries a literal
`BSSID` key still yields a projected record with a `BSSID` column — the
column for the missing field is not omitted, it is the pass-through of
the literal key. -/
theorem clean_rogue_data_missing_field_cex :
    clean_rogue_data [[("BSSID", Value.vStr "aa:bb")]] []
      = [[("BSSID", Value.vStr "aa:bb")]] := by rfl

/-- C7 (amended): projection is total and never fails on a record
lacking a renamed source field; the rename of the missing source
contributes no column, so its target column is exactly the pass-through
of a literal target key — absent whenever the record (like every
detection record) lacks that name too — and all other fields are
projected as usual. -/
theorem clean_rogue_data_missing_field (rd : List Record) (igs : List String)
    (ea : Record) (p : String × String) (hp : p ∈ renamePairs)
    (h1 : lookup ea p.1 = none) :
    clean_rogue_data rd igs = rd.map (cleanRecord igs)
      ∧ lookup (cleanRecord igs ea) p.2
          = (if p.2 ∈ igs then none else lookup ea p.2)
      ∧ (lookup ea p.2 = none → lookup (cleanRecord igs ea) p.2 = none)
      ∧ (∀ k, k ∉ igs → (∀ q ∈ renamePairs, k ≠ q.1 ∧ k ≠ q.2) →
          lookup (cleanRecord igs ea) k = lookup ea k) := by
  have h2 : lookup (cleanRecord igs ea) p.2
      = (if p.2 ∈ igs then none else lookup ea p.2) := by
    rw [lookup_cleanRecord_tgt igs ea p hp, lookup_dropRec, lookup_dropRec, h1]
    by_cases hpi : p.1 ∈ igs
    · rw [if_pos hpi]
      rfl
    · rw [if_neg hpi]
      rfl
  refine ⟨clean_rogue_data_eq_map rd igs, h2, ?_, lookup_cleanRecord_other igs ea⟩
  intro hz
  rw [h2, hz]
  split <;> rfl

/-- Witness for the amended C7: a record with only a manufacturer name
and no `id` projects with no `BSSID` column. -/
theorem clean_rogue_data_missing_field_witness :
    clean_rogue_data [[("name", Value.vStr "Acme")]] ["last_seen"]
        = [[("name", Value.vStr "Acme")]].map (cleanRecord ["last_seen"])
      ∧ lookup (cleanRecord ["last_seen"] [("name", Value.vStr "Acme")])
          ("id", "BSSID").2
          = (if ("id", "BSSID").2 ∈ ["last_seen"] then none
            else lookup [("name", Value.vStr "Acme")] ("id", "BSSID").2)
      ∧ (lookup [("name", Value.vStr "Acme")] ("id", "BSSID").2 = none →
          lookup (cleanRecord ["last_seen"] [("name", Value.vStr "Acme")])
            ("id", "BSSID").2 = none)
      ∧ (∀ k, k ∉ ["last_seen"] →
          (∀ q ∈ renamePairs, k ≠ q.1 ∧ k ≠ q.2) →
          lookup (cleanRecord ["last_seen"] [("name", Value.vStr "Acme")]) k
            = lookup [("name", Value.vStr "Acme")] k) :=
  clean_rogue_data_missing_field [[("name", Value.vStr "Acme")]] ["last_seen"]
    [("name", Value.vStr "Acme")] ("id", "BSSID") (by decide) (by decide)

/-- C9 counterexample: the slack channel's configured drop list does not
contain `last_det_device_name`, contrary to the claim that the slack
channel drops it. -/
theorem slack_keeps_last_det_device_name :
    "last_det_device_name" ∉ slack_ignore_keys := by decide

/-- C9 (amended): both delivery channels keep `last_det_device_name`,
and their drop lists are equal as sets — the only textual difference is
slack's repeated `last_seen` entry — so the two channels' configured
drop-field sets do not differ. -/
theorem drop_sets_equal :
    "last_det_device_name" ∉ slack_ignore_keys
      ∧ "last_det_device_name" ∉ smtp_ignore_keys
      ∧ (∀ k, k ∈ slack_ignore_keys ↔ k ∈ smtp_ignore_keys)
      ∧ slack_ignore_keys ≠ smtp_ignore_keys := by
  refine ⟨by decide, by decide, ?_, by decide⟩
  intro k
  simp only [slack_ignore_keys, smtp_ignore_keys, List.mem_cons,
    List.not_mem_nil, or_false]
  tauto

end FindRogues
